import Mathlib

/-!
Verification of the frontik outbound-request subsystem specification
against a shallow embedding of the repository code.

Components embedded here:
* AsyncCompletionGroup (the frontik AsyncGroup fan-in primitive),
* HealthTracker (per-server statistics and availability),
* RetryPolicy decision for status-code failures,
* UpstreamRegistry and the upstream configuration-string grammar,
* the worker supervision loop from frontik/process.py,
* the check_finished wrapper from frontik/handler.py,
* the SIGTERM handling of fork_workers from frontik/process.py.
-/

/-! ## AsyncCompletionGroup -/

/-- Operations callers can perform on an AsyncCompletionGroup. -/
inductive AgOp where
  | addPending : AgOp
  | resolve : Nat → AgOp
  | tryFinish : AgOp
  | abort : AgOp
deriving DecidableEq, Repr

/-- Modelled from the spec: frontik/async.py (AsyncGroup) is not included in
the sources, only its callers (handler.py, test pages). State of one group:
the set of outstanding handles, a counter used to mint fresh handles, whether
a finish has been requested, whether the group reached FINISHED, and how many
times the on_finish callback has fired. -/
structure AsyncGroup where
  pending : List Nat
  nextHandle : Nat
  finishRequested : Bool
  finished : Bool
  fireCount : Nat
deriving DecidableEq, Repr

/-- Modelled from the spec: open(onFinish) creates a group in state OPEN with
an empty pending set. -/
def AsyncGroup.openGroup : AsyncGroup :=
  { pending := [], nextHandle := 0, finishRequested := false, finished := false, fireCount := 0 }

/-- Modelled from the spec: one operation applied to the group state.
addPending after FINISHED is misuse: it is logged and the stray handle is
ignored. resolve removes the handle; if the set becomes empty and tryFinish
was already requested, the group transitions to FINISHED and on_finish fires.
tryFinish fires iff the pending set is empty, otherwise it only records the
request. abort forces FINISHED, discards pending handles and fires on_finish
if not already fired. -/
def agStep (g : AsyncGroup) : AgOp → AsyncGroup
  | AgOp.addPending =>
      if g.finished then g
      else { g with pending := g.nextHandle :: g.pending, nextHandle := g.nextHandle + 1 }
  | AgOp.resolve h =>
      if g.finished then g
      else
        let p := g.pending.erase h
        if p = [] ∧ g.finishRequested = true then
          { g with pending := p, finished := true, fireCount := g.fireCount + 1 }
        else
          { g with pending := p }
  | AgOp.tryFinish =>
      if g.finished then g
      else if g.pending = [] then
        { g with finishRequested := true, finished := true, fireCount := g.fireCount + 1 }
      else
        { g with finishRequested := true }
  | AgOp.abort =>
      if g.finished then g
      else { g with pending := [], finished := true, fireCount := g.fireCount + 1 }

/-- Run a sequence of operations from a freshly opened group. -/
def agRun (ops : List AgOp) : AsyncGroup :=
  ops.foldl agStep AsyncGroup.openGroup

/-- Invariant maintained by every operation: the callback fired at most once,
it fired exactly when the group is FINISHED, a requested finish with an empty
pending set implies FINISHED, and a FINISHED group has no pending handles. -/
def agInv (g : AsyncGroup) : Prop :=
  g.fireCount ≤ 1 ∧
  (g.finished = true ↔ g.fireCount = 1) ∧
  (g.finishRequested = true → g.pending = [] → g.finished = true) ∧
  (g.finished = true → g.pending = [])

lemma agInv_openGroup : agInv AsyncGroup.openGroup := by
  constructor
  · decide
  · exact ⟨by decide, by decide, by decide⟩

lemma agStep_of_finished (g : AsyncGroup) (op : AgOp) (h : g.finished = true) :
    agStep g op = g := by
  cases op <;> simp [agStep, h]

lemma agStep_addPending_open (g : AsyncGroup) (hf : g.finished = false) :
    agStep g AgOp.addPending =
      { g with pending := g.nextHandle :: g.pending, nextHandle := g.nextHandle + 1 } := by
  simp [agStep, hf]

lemma agStep_resolve_fire (g : AsyncGroup) (h : Nat) (hf : g.finished = false)
    (hcond : g.pending.erase h = [] ∧ g.finishRequested = true) :
    agStep g (AgOp.resolve h) =
      { g with pending := g.pending.erase h, finished := true,
               fireCount := g.fireCount + 1 } := by
  simp only [agStep, hf, Bool.false_eq_true, if_false, hcond, and_self, if_true]

lemma agStep_resolve_quiet (g : AsyncGroup) (h : Nat) (hf : g.finished = false)
    (hcond : ¬(g.pending.erase h = [] ∧ g.finishRequested = true)) :
    agStep g (AgOp.resolve h) = { g with pending := g.pending.erase h } := by
  simp only [agStep, hf, Bool.false_eq_true, if_false, if_neg hcond]

lemma agStep_tryFinish_fire (g : AsyncGroup) (hf : g.finished = false)
    (hp : g.pending = []) :
    agStep g AgOp.tryFinish =
      { g with finishRequested := true, finished := true,
               fireCount := g.fireCount + 1 } := by
  simp only [agStep, hf, Bool.false_eq_true, if_false, hp, if_true]

lemma agStep_tryFinish_quiet (g : AsyncGroup) (hf : g.finished = false)
    (hp : g.pending ≠ []) :
    agStep g AgOp.tryFinish = { g with finishRequested := true } := by
  simp only [agStep, hf, Bool.false_eq_true, if_false, if_neg hp]

lemma agStep_abort_open (g : AsyncGroup) (hf : g.finished = false) :
    agStep g AgOp.abort =
      { g with pending := [], finished := true, fireCount := g.fireCount + 1 } := by
  simp [agStep, hf]

lemma agInv_step (g : AsyncGroup) (hg : agInv g) (op : AgOp) : agInv (agStep g op) := by
  obtain ⟨h1, h2, h3, h4⟩ := hg
  cases hf : g.finished with
  | true => rw [agStep_of_finished g op hf]; exact ⟨h1, h2, h3, h4⟩
  | false =>
    have hfire : g.fireCount = 0 := by
      rcases Nat.lt_or_ge g.fireCount 1 with h | h
      · omega
      · have : g.finished = true := h2.mpr (by omega)
        rw [hf] at this; exact absurd this (by simp)
    cases op with
    | addPending =>
        rw [agStep_addPending_open g hf]
        refine ⟨h1, by simpa using h2, ?_, ?_⟩
        · intro _ hp; exact absurd hp (by simp)
        · intro hfin; exact absurd hfin (by simp [hf])
    | resolve h =>
        by_cases hcond : g.pending.erase h = [] ∧ g.finishRequested = true
        · rw [agStep_resolve_fire g h hf hcond]
          exact ⟨by simp [hfire], by simp [hfire], fun _ _ => rfl, fun _ => hcond.1⟩
        · rw [agStep_resolve_quiet g h hf hcond]
          refine ⟨h1, by simpa using h2, ?_, ?_⟩
          · intro hreq hp; exact absurd ⟨hp, hreq⟩ hcond
          · intro hfin; exact absurd hfin (by simp [hf])
    | tryFinish =>
        by_cases hp : g.pending = []
        · rw [agStep_tryFinish_fire g hf hp]
          exact ⟨by simp [hfire], by simp [hfire], fun _ _ => rfl, fun _ => hp⟩
        · rw [agStep_tryFinish_quiet g hf hp]
          refine ⟨h1, by simpa using h2, ?_, ?_⟩
          · intro _ hpe; exact absurd hpe hp
          · intro hfin; exact absurd hfin (by simp [hf])
    | abort =>
        rw [agStep_abort_open g hf]
        exact ⟨by simp [hfire], by simp [hfire], fun _ _ => rfl, fun _ => rfl⟩

lemma agInv_foldl (ops : List AgOp) :
    ∀ g : AsyncGroup, agInv g → agInv (ops.foldl agStep g) := by
  induction ops with
  | nil => intro g hg; exact hg
  | cons op rest ih => intro g hg; exact ih (agStep g op) (agInv_step g hg op)

lemma agInv_run (ops : List AgOp) : agInv (agRun ops) :=
  agInv_foldl ops AsyncGroup.openGroup agInv_openGroup

lemma agStep_requested_mono (g : AsyncGroup) (op : AgOp)
    (h : g.finishRequested = true ∨ g.finished = true) :
    (agStep g op).finishRequested = true ∨ (agStep g op).finished = true := by
  cases hf : g.finished with
  | true => rw [agStep_of_finished g op hf]; exact h
  | false =>
    have hr : g.finishRequested = true := by
      rcases h with h | h
      · exact h
      · rw [hf] at h; exact absurd h (by simp)
    cases op with
    | addPending => rw [agStep_addPending_open g hf]; exact Or.inl hr
    | resolve hd =>
        by_cases hcond : g.pending.erase hd = [] ∧ g.finishRequested = true
        · rw [agStep_resolve_fire g hd hf hcond]; exact Or.inl hr
        · rw [agStep_resolve_quiet g hd hf hcond]; exact Or.inl hr
    | tryFinish =>
        by_cases hp : g.pending = []
        · rw [agStep_tryFinish_fire g hf hp]; exact Or.inl rfl
        · rw [agStep_tryFinish_quiet g hf hp]; exact Or.inl rfl
    | abort => rw [agStep_abort_open g hf]; exact Or.inr rfl

lemma agStep_tryFinish_requested (g : AsyncGroup) :
    (agStep g AgOp.tryFinish).finishRequested = true ∨
      (agStep g AgOp.tryFinish).finished = true := by
  cases hf : g.finished with
  | true => rw [agStep_of_finished g AgOp.tryFinish hf]; exact Or.inr hf
  | false =>
    by_cases hp : g.pending = []
    · rw [agStep_tryFinish_fire g hf hp]; exact Or.inl rfl
    · rw [agStep_tryFinish_quiet g hf hp]; exact Or.inl rfl

lemma requested_foldl_mono (ops : List AgOp) :
    ∀ g : AsyncGroup, g.finishRequested = true ∨ g.finished = true →
      (ops.foldl agStep g).finishRequested = true ∨ (ops.foldl agStep g).finished = true := by
  induction ops with
  | nil => intro g h; exact h
  | cons op rest ih =>
      intro g h
      exact ih (agStep g op) (agStep_requested_mono g op h)

lemma requested_of_mem_foldl (ops : List AgOp) :
    ∀ g : AsyncGroup, AgOp.tryFinish ∈ ops →
      (ops.foldl agStep g).finishRequested = true ∨ (ops.foldl agStep g).finished = true := by
  induction ops with
  | nil => intro g hmem; exact absurd hmem (List.not_mem_nil _)
  | cons op rest ih =>
      intro g hmem
      rcases List.mem_cons.mp hmem with heq | hmem
      · subst heq
        exact requested_foldl_mono rest (agStep g AgOp.tryFinish)
          (agStep_tryFinish_requested g)
      · exact ih (agStep g op) hmem

lemma agStep_fire_characterization (g : AsyncGroup) (op : AgOp)
    (hfired : (agStep g op).fireCount = g.fireCount + 1) :
    op = AgOp.abort ∨ (op = AgOp.tryFinish ∧ g.pending = []) ∨
      ∃ h, op = AgOp.resolve h ∧ g.finishRequested = true ∧ g.pending.erase h = [] := by
  cases hf : g.finished with
  | true => rw [agStep_of_finished g op hf] at hfired; omega
  | false =>
    cases op with
    | addPending =>
        rw [agStep_addPending_open g hf] at hfired
        exact absurd hfired (by simp)
    | resolve h =>
        by_cases hcond : g.pending.erase h = [] ∧ g.finishRequested = true
        · exact Or.inr (Or.inr ⟨h, rfl, hcond.2, hcond.1⟩)
        · rw [agStep_resolve_quiet g h hf hcond] at hfired
          exact absurd hfired (by simp)
    | tryFinish =>
        by_cases hp : g.pending = []
        · exact Or.inr (Or.inl ⟨rfl, hp⟩)
        · rw [agStep_tryFinish_quiet g hf hp] at hfired
          exact absurd hfired (by simp)
    | abort => exact Or.inl rfl

/-- C1: over every operation sequence the on_finish callback fires at most
once; whenever tryFinish was requested at least once and every registered
pending handle was resolved (the final pending set is empty), it fires
exactly once; and a step can fire the callback only at an abort, at a
tryFinish finding the pending set empty, or at the resolve of the last
pending handle after a finish request. -/
theorem asyncGroup_on_finish_exactly_once (ops : List AgOp) :
    (agRun ops).fireCount ≤ 1 ∧
    (AgOp.tryFinish ∈ ops → (agRun ops).pending = [] → (agRun ops).fireCount = 1) ∧
    (∀ g op, (agStep g op).fireCount = g.fireCount + 1 →
      op = AgOp.abort ∨ (op = AgOp.tryFinish ∧ g.pending = []) ∨
        ∃ h, op = AgOp.resolve h ∧ g.finishRequested = true ∧ g.pending.erase h = []) := by
  obtain ⟨h1, h2, h3, h4⟩ := agInv_run ops
  refine ⟨h1, ?_, agStep_fire_characterization⟩
  intro hmem hpend
  rcases requested_of_mem_foldl ops AsyncGroup.openGroup hmem with hreq | hfin
  · exact h2.mp (h3 hreq hpend)
  · exact h2.mp hfin

/-- Witness for C1: three handles added, tryFinish requested early, all
handles then resolved; the callback fires exactly once. -/
theorem asyncGroup_on_finish_exactly_once_witness :
    (agRun [AgOp.addPending, AgOp.addPending, AgOp.addPending, AgOp.tryFinish,
            AgOp.resolve 0, AgOp.resolve 2, AgOp.resolve 1]).fireCount = 1 ∧
    (AgOp.tryFinish = AgOp.abort ∨
      (AgOp.tryFinish = AgOp.tryFinish ∧ AsyncGroup.openGroup.pending = []) ∨
      ∃ h, AgOp.tryFinish = AgOp.resolve h ∧
        AsyncGroup.openGroup.finishRequested = true ∧
        AsyncGroup.openGroup.pending.erase h = []) :=
  ⟨(asyncGroup_on_finish_exactly_once _).2.1 (by decide) (by decide),
   (asyncGroup_on_finish_exactly_once []).2.2 AsyncGroup.openGroup AgOp.tryFinish (by decide)⟩

/-- C2: aborting a group that still has unresolved pending handles reaches
FINISHED immediately, the callback has then fired exactly once, and any
subsequent resolve of a handle leaves the state (and the fire count)
unchanged. -/
theorem asyncGroup_abort_fires_once (ops : List AgOp)
    (hp : (agRun ops).pending ≠ []) :
    (agStep (agRun ops) AgOp.abort).finished = true ∧
    (agStep (agRun ops) AgOp.abort).fireCount = 1 ∧
    (∀ h, agStep (agStep (agRun ops) AgOp.abort) (AgOp.resolve h) =
      agStep (agRun ops) AgOp.abort) := by
  obtain ⟨h1, h2, h3, h4⟩ := agInv_run ops
  have hf : (agRun ops).finished = false := by
    cases hfin : (agRun ops).finished with
    | true => exact absurd (h4 hfin) hp
    | false => rfl
  have hfire : (agRun ops).fireCount = 0 := by
    rcases Nat.lt_or_ge (agRun ops).fireCount 1 with h | h
    · omega
    · have : (agRun ops).finished = true := h2.mpr (by omega)
      rw [hf] at this; exact absurd this (by simp)
  rw [agStep_abort_open (agRun ops) hf]
  refine ⟨rfl, by simp [hfire], ?_⟩
  intro h
  exact agStep_of_finished _ (AgOp.resolve h) rfl

/-- Witness for C2: a group with two unresolved handles is aborted; the
callback fires exactly once and a later resolve is a no-op. -/
theorem asyncGroup_abort_fires_once_witness :
    (agStep (agRun [AgOp.addPending, AgOp.addPending]) AgOp.abort).finished = true ∧
    (agStep (agRun [AgOp.addPending, AgOp.addPending]) AgOp.abort).fireCount = 1 ∧
    agStep (agStep (agRun [AgOp.addPending, AgOp.addPending]) AgOp.abort) (AgOp.resolve 0) =
      agStep (agRun [AgOp.addPending, AgOp.addPending]) AgOp.abort :=
  ⟨(asyncGroup_abort_fires_once [AgOp.addPending, AgOp.addPending] (by decide)).1,
   (asyncGroup_abort_fires_once [AgOp.addPending, AgOp.addPending] (by decide)).2.1,
   (asyncGroup_abort_fires_once [AgOp.addPending, AgOp.addPending] (by decide)).2.2 0⟩

/-! ## HealthTracker -/

/-- Modelled from the spec: per-server counters kept by the HealthTracker
(frontik/http_client.py is not included in the sources, only its callers and
tests). -/
structure ServerStat where
  requests : Nat
  fails : Nat
  last_fail_at : Option ℚ
deriving DecidableEq, Repr

inductive ReqOutcome where
  | success
  | failure
deriving DecidableEq, Repr

def ServerStat.initial : ServerStat :=
  { requests := 0, fails := 0, last_fail_at := none }

/-- Modelled from the spec: record increments requests; on failure it also
increments fails and sets last_fail_at to the current time. -/
def record (s : ServerStat) (o : ReqOutcome) (now : ℚ) : ServerStat :=
  match o with
  | ReqOutcome.success => { s with requests := s.requests + 1 }
  | ReqOutcome.failure =>
      { requests := s.requests + 1, fails := s.fails + 1, last_fail_at := some now }

/-- Modelled from the spec: per-upstream configuration with the retry policy
table mapping a status code to its idempotent-safe flag. -/
structure UpstreamConfig where
  max_fails : Nat
  fail_timeout_sec : ℚ
  retry_policy : List (Nat × Bool)
deriving DecidableEq, Repr

/-- Modelled from the spec: is_available returns false iff the fails counter
reached max_fails and the time elapsed since the last failure is strictly
below fail_timeout_sec; a server with no recorded failure is available. -/
def is_available (s : ServerStat) (cfg : UpstreamConfig) (now : ℚ) : Bool :=
  match s.last_fail_at with
  | none => true
  | some t =>
      if cfg.max_fails ≤ s.fails ∧ now - t < cfg.fail_timeout_sec then false else true

/-- Modelled from the spec: read-only observability snapshot. -/
def snapshot (s : ServerStat) : Nat × Nat :=
  (s.requests, s.fails)

/-- C3: is_available is false exactly when the fails counter reached
max_fails and the failure window has not yet elapsed; once the fails counter
reached max_fails the server is selectable again exactly when
now - last_fail_at is at least fail_timeout_sec (is_available reads the stat
without mutating it, so the fails counter is not reset); and a failure that
reaches max_fails makes the server unavailable immediately at the moment of
that failure. -/
theorem health_is_available_iff (s : ServerStat) (cfg : UpstreamConfig) (now t : ℚ)
    (hfail : s.last_fail_at = some t) :
    (is_available s cfg now = false ↔
       cfg.max_fails ≤ s.fails ∧ now - t < cfg.fail_timeout_sec) ∧
    (cfg.max_fails ≤ s.fails →
       (is_available s cfg now = true ↔ cfg.fail_timeout_sec ≤ now - t)) ∧
    (∀ s2 : ServerStat, ∀ tf : ℚ,
       cfg.max_fails ≤ s2.fails + 1 → 0 < cfg.fail_timeout_sec →
       is_available (record s2 ReqOutcome.failure tf) cfg tf = false ∧
       (record s2 ReqOutcome.failure tf).fails = s2.fails + 1 ∧
       (snapshot (record s2 ReqOutcome.failure tf)).2 = s2.fails + 1) := by
  refine ⟨?_, ?_, ?_⟩
  · by_cases hc : cfg.max_fails ≤ s.fails ∧ now - t < cfg.fail_timeout_sec
    · simp [is_available, hfail, hc]
    · simp only [is_available, hfail, if_neg hc]
      simp [hc]
  · intro hmf
    by_cases hlt : now - t < cfg.fail_timeout_sec
    · simp [is_available, hfail, hmf, hlt]
    · simp [is_available, hfail, hlt]
      linarith [not_lt.mp hlt]
  · intro s2 tf hmf hpos
    refine ⟨?_, rfl, rfl⟩
    simp [is_available, record, hmf, sub_self, hpos]

/-- Witness for C3: a server with 2 fails under max_fails = 2 and a
3-second window is unavailable 1 second after its last failure. -/
theorem health_is_available_iff_witness :
    is_available { requests := 5, fails := 2, last_fail_at := some 10 }
      { max_fails := 2, fail_timeout_sec := 3, retry_policy := [] } 11 = false :=
  (health_is_available_iff
      { requests := 5, fails := 2, last_fail_at := some 10 }
      { max_fails := 2, fail_timeout_sec := 3, retry_policy := [] } 11 10 rfl).1.mpr
    ⟨le_refl 2, by norm_num⟩

/-! ## RetryPolicy -/

/-- Modelled from the spec: read-only HTTP methods are inherently idempotent. -/
def idempotent_by_method (m : String) : Bool :=
  m == "GET" || m == "HEAD"

/-- Modelled from the spec: whether the retry_policy table of the upstream
marks a status code as idempotent-safe for retry. -/
def retry_policy_allows (cfg : UpstreamConfig) (code : Nat) : Bool :=
  match cfg.retry_policy.lookup code with
  | some b => b
  | none => false

/-- Modelled from the spec: the per-call ephemeral request descriptor. -/
structure BalancedRequest where
  upstream_name : String
  method : String
  uri : String
  idempotent : Bool
  tried : List String
  attempts : Nat
deriving DecidableEq, Repr

/-- Modelled from the spec: a status-code failure is retry-eligible only if
the method is inherently idempotent, the caller marked the call idempotent,
or the retry policy marks that status code idempotent-safe. -/
def should_retry_status (cfg : UpstreamConfig) (req : BalancedRequest) (code : Nat) : Bool :=
  idempotent_by_method req.method || req.idempotent || retry_policy_allows cfg code

inductive AttemptDecision where
  | retry
  | final (code : Nat)
deriving DecidableEq, Repr

/-- Modelled from the spec: on a status failure the client either retries on
another server or returns the failing status as the final outcome. -/
def status_failure_decision (cfg : UpstreamConfig) (req : BalancedRequest) (code : Nat) :
    AttemptDecision :=
  if should_retry_status cfg req code then AttemptDecision.retry
  else AttemptDecision.final code

/-- C4: a call that is not idempotent by method and not marked idempotent by
the caller is retried on a 503 exactly when the retry policy marks 503 as
idempotent-safe; otherwise the 503 is the final outcome. -/
theorem non_idempotent_503_retry_iff (cfg : UpstreamConfig) (req : BalancedRequest)
    (hm : idempotent_by_method req.method = false) (hi : req.idempotent = false) :
    (status_failure_decision cfg req 503 = AttemptDecision.retry ↔
       retry_policy_allows cfg 503 = true) ∧
    (retry_policy_allows cfg 503 = false →
       status_failure_decision cfg req 503 = AttemptDecision.final 503) := by
  constructor
  · cases hra : retry_policy_allows cfg 503 with
    | true => simp [status_failure_decision, should_retry_status, hm, hi, hra]
    | false => simp [status_failure_decision, should_retry_status, hm, hi, hra]
  · intro hra
    simp [status_failure_decision, should_retry_status, hm, hi, hra]

/-- Witness for C4: a non-idempotent POST receiving a 503 is retried under a
policy marking 503 idempotent-safe, and is final under an empty policy. -/
theorem non_idempotent_503_retry_iff_witness :
    status_failure_decision
        { max_fails := 1, fail_timeout_sec := 10, retry_policy := [(503, true)] }
        { upstream_name := "u", method := "POST", uri := "/p", idempotent := false,
          tried := [], attempts := 0 } 503 = AttemptDecision.retry ∧
    status_failure_decision
        { max_fails := 1, fail_timeout_sec := 10, retry_policy := [] }
        { upstream_name := "u", method := "POST", uri := "/p", idempotent := false,
          tried := [], attempts := 0 } 503 = AttemptDecision.final 503 :=
  ⟨(non_idempotent_503_retry_iff _ _ (by decide) (by decide)).1.mpr (by decide),
   (non_idempotent_503_retry_iff _ _ (by decide) (by decide)).2 (by decide)⟩

/-! ## UpstreamRegistry and configuration grammar -/

/-- Split a character list at every occurrence of the separator, keeping
empty pieces, mirroring the splitting of the configuration string. -/
def splitOnChar (c : Char) : List Char → List (List Char)
  | [] => [[]]
  | x :: xs =>
      let r := splitOnChar c xs
      if x = c then [] :: r
      else
        match r with
        | [] => [[x]]
        | y :: ys => (x :: y) :: ys

/-- Whitespace-separated tokens of one segment; repeated or extra
whitespace only produces empty pieces, which are dropped. -/
def segTokens (seg : List Char) : List (List Char) :=
  (splitOnChar ' ' seg).filter (fun t => !t.isEmpty)

/-- Split one token at its first equals sign into key and value. -/
def parseToken (tok : List Char) : List Char × List Char :=
  (tok.takeWhile (fun ch => ch ≠ '='), (tok.dropWhile (fun ch => ch ≠ '=')).drop 1)

/-- Key-value pairs of one segment. -/
def segPairs (seg : List Char) : List (List Char × List Char) :=
  (segTokens seg).map parseToken

/-- Global configuration pairs of the leading segment; unknown keys are kept
as opaque strings in input order. -/
def configPairs (seg : List Char) : List (String × String) :=
  (segPairs seg).map (fun p => (⟨p.1⟩, ⟨p.2⟩))

/-- Modelled from the spec: one server of an upstream pool. -/
structure Server where
  address : String
  weight : Nat
  datacenter : Option String
  rack : Option String
deriving DecidableEq, Repr

def natOfDigitsAux : List Char → Nat → Option Nat
  | [], acc => some acc
  | c :: cs, acc =>
      if c.isDigit then natOfDigitsAux cs (acc * 10 + (c.toNat - 48)) else none

/-- Decimal digits to a natural number; fails on an empty or non-numeric
value. -/
def natOfDigits (cs : List Char) : Option Nat :=
  match cs with
  | [] => none
  | _ => natOfDigitsAux cs 0

/-- Modelled from the spec: the weight attribute defaults to 1 when absent
or unparsable as a positive integer. -/
def weightOf (kvs : List (List Char × List Char)) : Nat :=
  match kvs.lookup ("weight".data) with
  | none => 1
  | some v =>
      match natOfDigits v with
      | some n => if 1 ≤ n then n else 1
      | none => 1

/-- Build a server from its address and the attribute pairs of its segment. -/
def serverOfPairs (addr : List Char) (kvs : List (List Char × List Char)) : Server :=
  { address := ⟨addr⟩
    weight := weightOf kvs
    datacenter := (kvs.lookup ("datacenter".data)).map (fun v => ⟨v⟩)
    rack := (kvs.lookup ("rack".data)).map (fun v => ⟨v⟩) }

/-- Modelled from the spec: a server segment begins with server=<address>;
an empty segment (from a trailing separator) is tolerated and yields no
server; a segment whose server address is missing is a configuration
error. -/
def parseServerSegment (seg : List Char) : Except String (Option Server) :=
  match segPairs seg with
  | [] => Except.ok none
  | (k, v) :: rest =>
      if k = ("server".data) ∧ v ≠ [] then
        Except.ok (some (serverOfPairs v ((k, v) :: rest)))
      else Except.error "malformed server segment: missing address"

/-- Parse all server segments in input order, failing on the first
malformed segment. -/
def parseServers : List (List Char) → Except String (List Server)
  | [] => Except.ok []
  | seg :: rest =>
      match parseServerSegment seg with
      | Except.error e => Except.error e
      | Except.ok none => parseServers rest
      | Except.ok (some s) => (parseServers rest).map (fun l => s :: l)

/-- Modelled from the spec: Upstream.parse_config splits the configuration
string into a leading global segment and server segments separated by
vertical bars. -/
def parse_config (s : String) :
    Except String (List (String × String) × List Server) :=
  match splitOnChar '|' s.data with
  | [] => Except.ok ([], [])
  | cfgSeg :: serverSegs =>
      (parseServers serverSegs).map (fun servers => (configPairs cfgSeg, servers))

/-- Modelled from the spec: an upstream is its name, its configuration
mapping and its ordered server pool. -/
structure Upstream where
  name : String
  config : List (String × String)
  servers : List Server
deriving DecidableEq, Repr

/-- Modelled from the spec: register parses the configuration string and,
only on success, atomically replaces the entry stored under the name; on a
parse error the registry is returned unchanged together with the error. -/
def register (reg : String → Option Upstream) (name : String) (cfgStr : String) :
    (String → Option Upstream) × Option String :=
  match parse_config cfgStr with
  | Except.error e => (reg, some e)
  | Except.ok (cfg, servers) =>
      (fun n =>
        if n = name then some { name := name, config := cfg, servers := servers }
        else reg n,
       none)

/-- A segment that produces tokens but whose first token is not a
server=<address> pair with a nonempty address. -/
def segMalformed (seg : List Char) : Bool :=
  match segPairs seg with
  | [] => false
  | (k, v) :: _ => if k = ("server".data) ∧ v ≠ [] then false else true

lemma parseServerSegment_malformed (seg : List Char) (h : segMalformed seg = true) :
    parseServerSegment seg = Except.error "malformed server segment: missing address" := by
  rcases hp : segPairs seg with _ | ⟨⟨k, v⟩, rest⟩
  · simp only [segMalformed, hp] at h
    exact absurd h (by simp)
  · simp only [segMalformed, hp] at h
    simp only [parseServerSegment, hp]
    by_cases hc : k = ("server".data) ∧ v ≠ []
    · rw [if_pos hc] at h; exact absurd h (by simp)
    · rw [if_neg hc]

lemma parseServers_error (segs : List (List Char))
    (h : ∃ seg ∈ segs, segMalformed seg = true) :
    ∃ e, parseServers segs = Except.error e := by
  induction segs with
  | nil => obtain ⟨seg, hmem, _⟩ := h; exact absurd hmem (List.not_mem_nil _)
  | cons seg rest ih =>
      obtain ⟨sg, hmem, hmal⟩ := h
      rcases List.mem_cons.mp hmem with heq | hmem2
      · subst heq
        exact ⟨_, by rw [parseServers, parseServerSegment_malformed sg hmal]⟩
      · rcases hps : parseServerSegment seg with e | os
        · exact ⟨e, by rw [parseServers, hps]⟩
        · obtain ⟨e, he⟩ := ih ⟨sg, hmem2, hmal⟩
          cases os with
          | none => exact ⟨e, by rw [parseServers, hps, he]⟩
          | some sv => exact ⟨e, by rw [parseServers, hps, he]; rfl⟩

lemma splitOnChar_ne_nil (c : Char) (cs : List Char) : splitOnChar c cs ≠ [] := by
  cases cs with
  | nil => simp [splitOnChar]
  | cons x xs =>
      rw [splitOnChar]
      by_cases hx : x = c
      · simp [hx]
      · simp only [if_neg hx]
        rcases splitOnChar c xs with _ | ⟨y, ys⟩ <;> simp

/-- C5: when some server segment of the configuration string is malformed
(its server address is missing), register fails with a configuration error
and the registry is left completely unchanged; in particular the prior
upstream stored under the same name is untouched. -/
theorem register_malformed_all_or_nothing (reg : String → Option Upstream)
    (name cfgStr : String)
    (hmal : ∃ seg ∈ (splitOnChar '|' cfgStr.data).tail, segMalformed seg = true) :
    ∃ e, register reg name cfgStr = (reg, some e) ∧
      (register reg name cfgStr).1 name = reg name := by
  rcases hs : splitOnChar '|' cfgStr.data with _ | ⟨cfgSeg, serverSegs⟩
  · exact absurd hs (splitOnChar_ne_nil '|' cfgStr.data)
  · rw [hs] at hmal
    obtain ⟨e, he⟩ := parseServers_error serverSegs hmal
    have hpc : parse_config cfgStr = Except.error e := by
      simp only [parse_config, hs, he]
      rfl
    refine ⟨e, ?_, ?_⟩
    · simp only [register, hpc]
    · simp only [register, hpc]

/-- Witness for C5: registering a string whose server segment is missing its
address fails and leaves the prior entry intact. -/
theorem register_malformed_all_or_nothing_witness :
    ∃ e, register
        (fun n => if n = "up" then some { name := "up", config := [], servers := [] } else none)
        "up" "max_fails=1|server= weight=2" =
      ((fun n => if n = "up" then some { name := "up", config := [], servers := [] } else none),
       some e) ∧
      (register
        (fun n => if n = "up" then some { name := "up", config := [], servers := [] } else none)
        "up" "max_fails=1|server= weight=2").1 "up" =
      (fun n => if n = "up" then some { name := "up", config := [], servers := [] } else none) "up" :=
  register_malformed_all_or_nothing _ "up" "max_fails=1|server= weight=2" (by decide)

/-- C6: parsing the single-server configuration string yields max_fails 30
and fail_timeout 1 in the global configuration and exactly one server with
address 10.0.0.1:2800 and weight 100; the trailing separator with no
following segment and repeated or extra whitespace are tolerated. -/
theorem parse_config_single_server :
    ∃ cfg servers,
      parse_config "max_fails=30 fail_timeout=1|server=10.0.0.1:2800 weight=100|" =
        Except.ok (cfg, servers) ∧
      cfg.lookup "max_fails" = some "30" ∧
      cfg.lookup "fail_timeout" = some "1" ∧
      servers =
        [{ address := "10.0.0.1:2800", weight := 100, datacenter := none, rack := none }] ∧
      parse_config "max_fails=30  fail_timeout=1 | server=10.0.0.1:2800  weight=100 | " =
        Except.ok (cfg, servers) :=
  ⟨[("max_fails", "30"), ("fail_timeout", "1")],
   [{ address := "10.0.0.1:2800", weight := 100, datacenter := none, rack := none }],
   rfl, rfl, rfl, rfl, rfl⟩

/-- Address announced by a server segment, when well formed. -/
def segAddress (seg : List Char) : Option String :=
  match segPairs seg with
  | [] => none
  | (k, v) :: _ => if k = ("server".data) ∧ v ≠ [] then some ⟨v⟩ else none

lemma parseServerSegment_ok_none (seg : List Char)
    (h : parseServerSegment seg = Except.ok none) : segAddress seg = none := by
  rcases hp : segPairs seg with _ | ⟨⟨k, v⟩, rest⟩
  · simp [segAddress, hp]
  · simp only [parseServerSegment, hp] at h
    by_cases hc : k = ("server".data) ∧ v ≠ []
    · rw [if_pos hc] at h; exact absurd h (by simp)
    · rw [if_neg hc] at h; exact absurd h (by simp)

lemma parseServerSegment_ok_some (seg : List Char) (sv : Server)
    (h : parseServerSegment seg = Except.ok (some sv)) :
    segAddress seg = some sv.address := by
  rcases hp : segPairs seg with _ | ⟨⟨k, v⟩, rest⟩
  · simp only [parseServerSegment, hp] at h
    exact absurd h (by simp)
  · simp only [parseServerSegment, hp] at h
    simp only [segAddress, hp]
    by_cases hc : k = ("server".data) ∧ v ≠ []
    · rw [if_pos hc] at h
      rw [if_pos hc]
      injection h with h2
      injection h2 with h3
      rw [← h3]
      rfl
    · rw [if_neg hc] at h; exact absurd h (by simp)

lemma parseServers_map_address (segs : List (List Char)) :
    ∀ servers, parseServers segs = Except.ok servers →
      servers.map Server.address = segs.filterMap segAddress := by
  induction segs with
  | nil =>
      intro servers h
      simp only [parseServers] at h
      injection h with h2
      rw [← h2]
      rfl
  | cons seg rest ih =>
      intro servers h
      rcases hps : parseServerSegment seg with e | os
      · simp only [parseServers, hps] at h
        exact absurd h (by simp)
      · cases os with
        | none =>
            simp only [parseServers, hps] at h
            rw [List.filterMap_cons, parseServerSegment_ok_none seg hps]
            exact ih servers h
        | some sv =>
            simp only [parseServers, hps] at h
            rcases hr : parseServers rest with e2 | l
            · rw [hr] at h
              exact absurd h (by simp [Except.map])
            · rw [hr] at h
              simp only [Except.map] at h
              injection h with h2
              rw [← h2, List.filterMap_cons, parseServerSegment_ok_some seg sv hps,
                  List.map_cons, ih l hr]

/-- C7: parsing the two-server configuration string yields an empty global
configuration and two servers in input order with weights 1 and 2; in
general parsed servers preserve the input order of the server segments, and
a segment without a weight attribute yields the default weight 1. -/
theorem parse_config_multiple_servers :
    parse_config "|server=a weight=1|server=b weight=2" =
      Except.ok ([],
        [{ address := "a", weight := 1, datacenter := none, rack := none },
         { address := "b", weight := 2, datacenter := none, rack := none }]) ∧
    (∀ segs servers, parseServers segs = Except.ok servers →
       servers.map Server.address = segs.filterMap segAddress) ∧
    (∀ addr kvs, kvs.lookup ("weight".data) = none →
       (serverOfPairs addr kvs).weight = 1) := by
  refine ⟨rfl, parseServers_map_address, ?_⟩
  intro addr kvs h
  simp [serverOfPairs, weightOf, h]

/-- Witness for C7: order preservation and the default weight at a concrete
single-segment input. -/
theorem parse_config_multiple_servers_witness :
    ([{ address := "x", weight := 1, datacenter := none, rack := none }] : List Server).map
        Server.address = (["server=x".data].filterMap segAddress) ∧
    (serverOfPairs ("x".data) []).weight = 1 :=
  ⟨parse_config_multiple_servers.2.1 ["server=x".data]
      [{ address := "x", weight := 1, datacenter := none, rack := none }] rfl,
   parse_config_multiple_servers.2.2 ("x".data) [] rfl⟩

/-! ## Worker supervision (frontik/process.py) -/

/-- Outcome reported by os.wait for one child: killed by a signal, or
exited with a status code. -/
inductive WaitStatus where
  | signaled (sig : Nat)
  | exited (code : Nat)
deriving DecidableEq, Repr

/-- Whether the wait status triggers the restarting branches of
_supervise_workers (WIFSIGNALED, or WEXITSTATUS different from 0). -/
def WaitStatus.abnormal : WaitStatus → Bool
  | WaitStatus.signaled _ => true
  | WaitStatus.exited c => c != 0

/-- Lookup of a pid in the children mapping (python dict access). -/
def childLookup (pid : Nat) : List (Nat × Nat) → Option Nat
  | [] => none
  | c :: rest => if c.1 = pid then some c.2 else childLookup pid rest

/-- Removal of a pid from the children mapping (python dict pop). -/
def childRemove (pid : Nat) : List (Nat × Nat) → List (Nat × Nat)
  | [] => []
  | c :: rest => if c.1 = pid then childRemove pid rest else c :: childRemove pid rest

/-- State of the supervising parent process: the children map from pid to
worker id, the terminating flag and a counter minting fresh pids for
restarted children. -/
structure SupState where
  children : List (Nat × Nat)
  terminating : Bool
  nextPid : Nat
deriving DecidableEq, Repr

/-- One iteration of the _supervise_workers loop body for the wait event
(pid, status): a pid that is not in the children map is skipped; otherwise
the child is removed from the map; a normal exit with status 0 is never
restarted; a child killed by a signal or exiting nonzero is restarted by
_start_child, unless termination has begun. The returned list holds the
worker ids restarted by this event. -/
def superviseStep (s : SupState) (pid : Nat) (status : WaitStatus) :
    SupState × List Nat :=
  match childLookup pid s.children with
  | none => (s, [])
  | some id =>
      let s1 : SupState := { s with children := childRemove pid s.children }
      if status.abnormal then
        if s1.terminating then (s1, [])
        else ({ s1 with children := (s1.nextPid, id) :: s1.children,
                        nextPid := s1.nextPid + 1 }, [id])
      else (s1, [])

inductive SupOutcome where
  | exited
  | awaiting (s : SupState)
deriving DecidableEq, Repr

/-- The supervision loop driven by a finite schedule of wait events: it
exits as soon as the children map is empty and otherwise consumes events. -/
def superviseRun (s : SupState) : List (Nat × WaitStatus) → SupOutcome
  | [] => if s.children = [] then SupOutcome.exited else SupOutcome.awaiting s
  | ev :: evs =>
      if s.children = [] then SupOutcome.exited
      else superviseRun (superviseStep s ev.1 ev.2).1 evs

lemma childLookup_childRemove (pid : Nat) (l : List (Nat × Nat)) :
    childLookup pid (childRemove pid l) = none := by
  induction l with
  | nil => rfl
  | cons c rest ih =>
      rw [childRemove]
      by_cases h : c.1 = pid
      · rw [if_pos h]; exact ih
      · rw [if_neg h, childLookup, if_neg h]; exact ih

/-- C8: a child that exits normally with status 0 is removed and never
replaced; a child killed by a signal or exiting nonzero is replaced by
exactly one new child, unless termination has begun, in which case nothing
is restarted; an unknown pid is skipped; and the supervisor exits as soon
as the children map is empty. -/
theorem supervise_restart_policy (s : SupState) (pid id : Nat) (status : WaitStatus) :
    (childLookup pid s.children = none → superviseStep s pid status = (s, [])) ∧
    (childLookup pid s.children = some id → status = WaitStatus.exited 0 →
       superviseStep s pid status =
         ({ s with children := childRemove pid s.children }, []) ∧
       childLookup pid (superviseStep s pid status).1.children = none) ∧
    (childLookup pid s.children = some id → status.abnormal = true → s.terminating = false →
       superviseStep s pid status =
         ({ s with children := (s.nextPid, id) :: childRemove pid s.children,
                   nextPid := s.nextPid + 1 }, [id])) ∧
    (childLookup pid s.children = some id → s.terminating = true →
       (superviseStep s pid status).2 = []) ∧
    (∀ evs, s.children = [] → superviseRun s evs = SupOutcome.exited) := by
  refine ⟨?_, ?_, ?_, ?_, ?_⟩
  · intro h
    simp [superviseStep, h]
  · intro h h0
    subst h0
    have hstep : superviseStep s pid (WaitStatus.exited 0) =
        ({ s with children := childRemove pid s.children }, []) := by
      simp [superviseStep, h, WaitStatus.abnormal]
    exact ⟨hstep, by rw [hstep]; exact childLookup_childRemove pid s.children⟩
  · intro h hab hterm
    simp [superviseStep, h, hab, hterm]
  · intro h hterm
    cases hab : status.abnormal with
    | true => simp [superviseStep, h, hab, hterm]
    | false => simp [superviseStep, h, hab]
  · intro evs h
    cases evs with
    | nil => simp [superviseRun, h]
    | cons ev rest => simp [superviseRun, h]

/-- Witness for C8: a supervisor with two children sees a clean exit, an
abnormal exit and an event for an unknown pid, and exits on an empty map. -/
theorem supervise_restart_policy_witness :
    superviseStep { children := [(100, 0), (101, 1)], terminating := false, nextPid := 200 }
        100 (WaitStatus.exited 0) =
      ({ children := [(101, 1)], terminating := false, nextPid := 200 }, []) ∧
    superviseStep { children := [(100, 0), (101, 1)], terminating := false, nextPid := 200 }
        101 (WaitStatus.signaled 9) =
      ({ children := [(200, 1), (100, 0)], terminating := false, nextPid := 201 }, [1]) ∧
    superviseStep { children := [(100, 0), (101, 1)], terminating := false, nextPid := 200 }
        999 (WaitStatus.exited 1) =
      ({ children := [(100, 0), (101, 1)], terminating := false, nextPid := 200 }, []) ∧
    superviseRun { children := [], terminating := true, nextPid := 200 }
        [(100, WaitStatus.exited 0)] = SupOutcome.exited :=
  ⟨((supervise_restart_policy _ 100 0 (WaitStatus.exited 0)).2.1 (by decide) rfl).1,
   (supervise_restart_policy _ 101 1 (WaitStatus.signaled 9)).2.2.1 (by decide) (by decide) rfl,
   (supervise_restart_policy _ 999 0 (WaitStatus.exited 1)).1 (by decide),
   (supervise_restart_policy { children := [], terminating := true, nextPid := 200 } 0 0
      (WaitStatus.exited 0)).2.2.2.2 [(100, WaitStatus.exited 0)] rfl⟩

/-! ## check_finished (frontik/handler.py) -/

/-- Handler state visible to the check_finished wrapper: the _finished flag
read at invocation time, the world the callback acts on, and the count of
warnings logged for ignored invocations. -/
structure HandlerState (σ : Type) where
  finished : Bool
  world : σ
  warnings : Nat
deriving DecidableEq, Repr

/-- From BaseHandler.check_finished: the returned wrapper checks the
_finished flag of the handler at invocation time; when the page is already
finished it only logs a warning that the callback is ignored, otherwise it
invokes the wrapped callback with the invocation arguments unchanged. -/
def check_finished_wrapper {α σ : Type} (cb : α → σ → σ) (h : HandlerState σ) (a : α) :
    HandlerState σ :=
  if h.finished then { h with warnings := h.warnings + 1 }
  else { h with world := cb a h.world }

/-- C9: the wrapper invokes the wrapped callback with the arguments passed
through unchanged exactly when the handler has not finished; once the
handler is finished every invocation leaves the world untouched and only
logs a warning. -/
theorem check_finished_guards {α σ : Type} (cb : α → σ → σ) (h : HandlerState σ) (a : α) :
    (h.finished = false →
       check_finished_wrapper cb h a = { h with world := cb a h.world }) ∧
    (h.finished = true →
       (check_finished_wrapper cb h a).world = h.world ∧
       (check_finished_wrapper cb h a).warnings = h.warnings + 1 ∧
       (check_finished_wrapper cb h a).finished = h.finished) := by
  constructor
  · intro hf
    simp [check_finished_wrapper, hf]
  · intro hf
    simp [check_finished_wrapper, hf]

/-- Witness for C9: an unfinished handler applies the callback to its
arguments; a finished handler ignores it and logs a warning. -/
theorem check_finished_guards_witness :
    check_finished_wrapper (fun (a : Nat) (w : Nat) => w + a)
        { finished := false, world := 5, warnings := 0 } 3 =
      { finished := false, world := 8, warnings := 0 } ∧
    (check_finished_wrapper (fun (a : Nat) (w : Nat) => w + a)
        { finished := true, world := 5, warnings := 0 } 3).world = 5 ∧
    (check_finished_wrapper (fun (a : Nat) (w : Nat) => w + a)
        { finished := true, world := 5, warnings := 0 } 3).warnings = 1 :=
  ⟨(check_finished_guards (fun (a : Nat) (w : Nat) => w + a)
      { finished := false, world := 5, warnings := 0 } 3).1 rfl,
   ((check_finished_guards (fun (a : Nat) (w : Nat) => w + a)
      { finished := true, world := 5, warnings := 0 } 3).2 rfl).1,
   ((check_finished_guards (fun (a : Nat) (w : Nat) => w + a)
      { finished := true, world := 5, warnings := 0 } 3).2 rfl).2.1⟩

/-! ## SIGTERM handling of fork_workers (frontik/process.py) -/

/-- Supervisor-process state read by the SIGTERM handler: whether this
process is the server (parent), whether termination has begun, and the
children map from pid to worker id. -/
structure ForkState where
  server : Bool
  terminating : Bool
  children : List (Nat × Nat)
deriving DecidableEq, Repr

/-- Observable effects of the handler: how often
before_workers_shutdown_action ran and the pids sent SIGTERM, in order. -/
structure SigLog where
  shutdownActions : Nat
  sigterms : List Nat
deriving DecidableEq, Repr

/-- From sigterm_handler in fork_workers: a child process (server false) or
an already-terminating server returns immediately; otherwise the
terminating flag is set (before any shutdown work starts), the shutdown
action runs once and every live child is sent SIGTERM once. -/
def sigtermHandler (s : ForkState) (log : SigLog) : ForkState × SigLog :=
  if s.server = false ∨ s.terminating = true then (s, log)
  else ({ s with terminating := true },
        { shutdownActions := log.shutdownActions + 1,
          sigterms := log.sigterms ++ s.children.map Prod.fst })

/-- Repeated delivery of SIGTERM to the process. -/
def deliverSigterms : Nat → ForkState × SigLog → ForkState × SigLog
  | 0, p => p
  | n + 1, p => deliverSigterms n (sigtermHandler p.1 p.2)

lemma sigtermHandler_noop (s : ForkState) (log : SigLog)
    (h : s.server = false ∨ s.terminating = true) :
    sigtermHandler s log = (s, log) := by
  simp [sigtermHandler, h]

lemma deliverSigterms_noop (n : Nat) (s : ForkState) (log : SigLog)
    (h : s.server = false ∨ s.terminating = true) :
    deliverSigterms n (s, log) = (s, log) := by
  induction n with
  | zero => rfl
  | succ m ih => rw [deliverSigterms, sigtermHandler_noop s log h]; exact ih

/-- C10: for any positive number of SIGTERM deliveries to the supervisor,
the shutdown action runs exactly once and every live child receives exactly
one SIGTERM, because the terminating flag set by the first delivery makes
all later deliveries return immediately; a delivery inside a child process
(server false) performs no shutdown work at all. -/
theorem sigterm_at_most_once (s : ForkState) (log : SigLog) (n : Nat) :
    (s.server = true → s.terminating = false →
       deliverSigterms (n + 1) (s, log) =
         ({ s with terminating := true },
          { shutdownActions := log.shutdownActions + 1,
            sigterms := log.sigterms ++ s.children.map Prod.fst })) ∧
    (s.server = false → deliverSigterms n (s, log) = (s, log)) := by
  constructor
  · intro hs ht
    rw [deliverSigterms]
    have h1 : sigtermHandler s log =
        ({ s with terminating := true },
         { shutdownActions := log.shutdownActions + 1,
           sigterms := log.sigterms ++ s.children.map Prod.fst }) := by
      simp [sigtermHandler, hs, ht]
    rw [h1]
    exact deliverSigterms_noop n _ _ (Or.inr rfl)
  · intro hs
    exact deliverSigterms_noop n s log (Or.inl hs)

/-- Witness for C10: three deliveries to a server with two children run the
shutdown action once and signal each child once; deliveries inside a child
process change nothing. -/
theorem sigterm_at_most_once_witness :
    deliverSigterms 3 ({ server := true, terminating := false, children := [(10, 0), (11, 1)] },
        { shutdownActions := 0, sigterms := [] }) =
      ({ server := true, terminating := true, children := [(10, 0), (11, 1)] },
       { shutdownActions := 1, sigterms := [10, 11] }) ∧
    deliverSigterms 5 ({ server := false, terminating := false, children := [] },
        { shutdownActions := 0, sigterms := [] }) =
      ({ server := false, terminating := false, children := [] },
       { shutdownActions := 0, sigterms := [] }) :=
  ⟨(sigterm_at_most_once { server := true, terminating := false, children := [(10, 0), (11, 1)] }
      { shutdownActions := 0, sigterms := [] } 2).1 rfl rfl,
   (sigterm_at_most_once { server := false, terminating := false, children := [] }
      { shutdownActions := 0, sigterms := [] } 5).2 rfl⟩
